import Mathlib

/-!
Verification of the outbound-file-delivery pipeline of `bot.js`:
the `RateLimiter` class (a FIFO task queue with retry, exponential
backoff and a staleness timeout) and the `sendFilesInGroups` function
(batching into groups of 10, a per-group retry layer, progress /
failure / summary notifications, and filesystem cleanup).

The embedding is a shallow one.  Asynchronous effects are modelled by
explicit state passing; the environment (task results, transport send
results, media-batch construction, the reply sink, and random jitter)
is modelled by oracle functions, so that one choice of oracles
corresponds to one concrete run of the JavaScript code.  Durations are
rationals because the backoff multiplier is 1.5.
-/

/-! ## Rate limiter (`class RateLimiter`, bot.js lines 23-83)

The module instantiates `new RateLimiter(3000)`, so the constants are
`interval = 3000`, `maxRetries = 5`, `backoffMultiplier = 1.5`,
`timeout = 30000`.  A queue item records the task (identified here by
a numeric id, its behaviour given by an oracle), its retry count, its
current backoff duration and its enqueue timestamp, exactly the fields
pushed by `add` (lines 35-42). -/

/-- One queued item of the rate limiter (bot.js lines 35-42).  The
task itself is represented by its id `tid`; the result of attempt
number `n` of task `tid` is given by an oracle `Nat → Nat → Except Nat Nat`
(`Except.error e` models the task throwing `e`). -/
structure QItem where
  tid : Nat
  retries : Nat
  backoffTime : ℚ
  startTime : Nat
deriving DecidableEq, Repr

/-- Observable events of the rate limiter: a promise resolving with a
value, a promise rejecting with an error, and the backoff sleep taken
after a retriable failure (`await new Promise(... item.backoffTime)`,
bot.js line 75).  The unconditional `interval + jitter` sleep of line
80 carries no per-item information and is not recorded. -/
inductive REv where
  | resolved (tid v : Nat)
  | rejected (tid e : Nat)
  | backoffSleep (tid : Nat) (d : ℚ)
deriving DecidableEq, Repr

/-- The task id an event is about. -/
def revTid : REv → Nat
  | REv.resolved t _ => t
  | REv.rejected t _ => t
  | REv.backoffSleep t _ => t

/-- `add` pushes a fresh item at the tail of the queue
(bot.js lines 33-47): zero retries, backoff at the base interval,
start time stamped at enqueue. -/
def rlAdd (tid now : Nat) (q : List QItem) : List QItem :=
  q ++ [{ tid := tid, retries := 0, backoffTime := 3000, startTime := now }]

/-- The update applied to a retriably failing item (bot.js lines
67 and 73): increment `retries`, multiply `backoffTime` by 1.5. -/
def bumpItem (item : QItem) : QItem :=
  { item with retries := item.retries + 1,
              backoffTime := item.backoffTime * (3 / 2) }

/-- One iteration of `RateLimiter.process` (bot.js lines 49-82) on a
non-empty queue, at wall-clock time `now`.
On success (line 59-64): resolve, drop the head, and reset the new
head's backoff to the base interval.
On failure (lines 65-76): increment the retry counter; if
`retries >= maxRetries` or `now - startTime > timeout`, reject and
drop the item; otherwise multiply its backoff by 1.5, move it to the
tail and sleep for the new backoff. -/
def rlStep (f : Nat → Nat → Except Nat Nat) (now : Nat) :
    List QItem → List QItem × List REv
  | [] => ([], [])
  | item :: rest =>
    match f item.tid item.retries with
    | Except.ok v =>
      (match rest with
       | [] => []
       | n :: rs => { n with backoffTime := 3000 } :: rs,
       [REv.resolved item.tid v])
    | Except.error e =>
      if 5 ≤ item.retries + 1 ∨ 30000 < now - item.startTime then
        (rest, [REv.rejected item.tid e])
      else
        (rest ++ [bumpItem item], [REv.backoffSleep item.tid (item.backoffTime * (3 / 2))])

/-- Iterated `rlStep`: the self-rescheduling loop of `process`.  One
wall-clock timestamp is consumed per iteration; the run stops when the
queue is empty (line 50-53) or the timestamp supply is exhausted. -/
def rlRun (f : Nat → Nat → Except Nat Nat) : List Nat → List QItem → List REv
  | [], _ => []
  | _ :: _, [] => []
  | now :: ns, item :: q =>
    let s := rlStep f now (item :: q)
    s.2 ++ rlRun f ns s.1

/-- The backoff sleeps recorded for task `tid`, in order. -/
def backoffsOf (tid : Nat) : List REv → List ℚ
  | [] => []
  | ev :: rest =>
    match ev with
    | REv.backoffSleep t d =>
      if t = tid then d :: backoffsOf tid rest else backoffsOf tid rest
    | _ => backoffsOf tid rest

/-! ## Grouped file delivery (`sendFilesInGroups`, bot.js lines 89-170) -/

/-- A File Reference: a path on local storage (paths are numbers in
the model).  The `count` metadata of the callers is irrelevant to the
pipeline and omitted. -/
structure FileRef where
  path : Nat
deriving DecidableEq, Repr

/-- The call sites of `ctx.reply` inside `sendFilesInGroups`, indexed
by group where relevant: the progress notification (line 131), the
failed-group notification (line 135), and the final summary
(line 156). -/
inductive ReplyKind where
  | progress (g : Nat)
  | groupFail (g : Nat)
  | summary
deriving DecidableEq, Repr

/-- Observable events of the pipeline: the three notification calls
(recorded when the call is issued, with the numbers interpolated into
the message) and a file deletion (`fs.unlinkSync`, line 145). -/
inductive PEv where
  | progressReply (done total : Nat)
  | groupFailReply (g : Nat)
  | summaryReply (succ failed groups : Nat)
  | unlink (p : Nat)
deriving DecidableEq, Repr

/-- The environment of one run of `sendFilesInGroups`:
`buildOk g` — whether building group `g`'s media batch (line 102)
succeeds; `sendOk g a` — whether attempt `a` of the queue submission
for group `g` (line 113, i.e. the promise returned by
`rateLimiter.add`) resolves; `replyOk k` — whether the reply call `k`
succeeds or throws; `jit g a` — the value of `Math.random() * 1000`
drawn at line 123 for attempt `a` of group `g`. -/
structure Env where
  buildOk : Nat → Bool
  sendOk : Nat → Nat → Bool
  replyOk : ReplyKind → Bool
  jit : Nat → Nat → ℚ

/-- The per-group retry loop (bot.js lines 107-126):
`while (!success && retryCount < maxRetries)`, starting from
`backoffTime = 3000`; on each failure the backoff is multiplied by 1.5
and the loop sleeps `backoffTime + jitter`.  Arguments: remaining
allowed attempts, current attempt index, current backoff.  Returns
whether the loop exited with `success = true`, together with the list
of waits it slept. -/
def retryLoop (send : Nat → Bool) (jit : Nat → ℚ) : Nat → Nat → ℚ → Bool × List ℚ
  | 0, _, _ => (false, [])
  | rem + 1, attempt, backoff =>
    if send attempt then (true, [])
    else
      let b := backoff * (3 / 2)
      let r := retryLoop send jit rem (attempt + 1) b
      (r.1, (b + jit attempt) :: r.2)

/-- The grouping of line 98-99: `files.slice(i, i + 10)` for
`i = 0, 10, 20, ...`. -/
def groupsOf : List FileRef → List (List FileRef)
  | [] => []
  | f :: rest => (f :: rest.take 9) :: groupsOf (rest.drop 9)
termination_by l => l.length
decreasing_by simp [List.length_drop]; omega

/-- The paths of a list of File References. -/
def pathsOf (l : List FileRef) : List Nat := l.map FileRef.path

/-- The `finally` cleanup of one group (bot.js lines 141-150): for
each file, if it exists delete it.  State: the set of existing paths
(a duplicate-free list) and the event log. -/
def cleanupGroup : List FileRef → List Nat → List PEv → List Nat × List PEv
  | [], fs, log => (fs, log)
  | f :: rest, fs, log =>
    if f.path ∈ fs then
      cleanupGroup rest (fs.erase f.path) (log ++ [PEv.unlink f.path])
    else
      cleanupGroup rest fs log

/-- The body of one iteration of the group loop before the `finally`
block (bot.js lines 101-140): build the media batch, run the retry
loop, then either count the group as successful (and possibly emit a
progress notification) or record it as failed (and emit the
failed-group notification).  An error thrown by a notification lands
in the `catch` of line 138, which appends the group to `failedFiles`.
Returns the updated success counter, failed-files list and log. -/
def processGroupCore (env : Env) (total g : Nat) (grp : List FileRef)
    (succ : Nat) (failed : List FileRef) (log : List PEv) :
    Nat × List FileRef × List PEv :=
  if env.buildOk g then
    if (retryLoop (env.sendOk g) (env.jit g) 5 0 3000).1 then
      let succ2 := succ + grp.length
      if succ2 % 30 == 0 || total ≤ g * 10 + 10 then
        let log2 := log ++ [PEv.progressReply succ2 total]
        if env.replyOk (ReplyKind.progress g) then (succ2, failed, log2)
        else (succ2, failed ++ grp, log2)
      else (succ2, failed, log)
    else
      let log2 := log ++ [PEv.groupFailReply g]
      if env.replyOk (ReplyKind.groupFail g) then (succ, failed ++ grp, log2)
      else (succ, failed ++ grp ++ grp, log2)
  else (succ, failed ++ grp, log)

/-- One full iteration of the group loop: the body followed by the
`finally` cleanup (which runs on every control path). -/
def processGroup (env : Env) (total g : Nat) (grp : List FileRef)
    (succ : Nat) (failed : List FileRef) (fs : List Nat) (log : List PEv) :
    Nat × List FileRef × List Nat × List PEv :=
  let core := processGroupCore env total g grp succ failed log
  let cl := cleanupGroup grp fs core.2.2
  (core.1, core.2.1, cl.1, cl.2)

/-- The loop over groups, with `g` the index of the first group of the
remaining list. -/
def runGroups (env : Env) (total : Nat) :
    List (List FileRef) → Nat → Nat → List FileRef → List Nat → List PEv →
    Nat × List FileRef × List Nat × List PEv
  | [], _, succ, failed, fs, log => (succ, failed, fs, log)
  | grp :: rest, g, succ, failed, fs, log =>
    let st := processGroup env total g grp succ failed fs log
    runGroups env total rest (g + 1) st.1 st.2.1 st.2.2.1 st.2.2.2

/-- The Delivery Outcome returned at line 164. -/
structure SendResult where
  successCount : Nat
  failedFiles : List FileRef
deriving DecidableEq, Repr

/-- `sendFilesInGroups(ctx, files)` (bot.js lines 89-170) run against
environment `env` with initial filesystem `fs0`.  After the group loop
the summary notification (line 156) is issued; if that reply throws,
the outer catch of line 166 rethrows and the function terminates with
an error instead of returning the outcome.  Returns the result, the
final filesystem and the event log. -/
def sendFilesInGroups (env : Env) (files : List FileRef) (fs0 : List Nat) :
    Except Unit SendResult × List Nat × List PEv :=
  let r := runGroups env files.length (groupsOf files) 0 0 [] fs0 []
  let log2 := r.2.2.2 ++
    [PEv.summaryReply r.1 r.2.1.length ((files.length + 9) / 10)]
  if env.replyOk ReplyKind.summary then
    (Except.ok ⟨r.1, r.2.1⟩, r.2.2.1, log2)
  else
    (Except.error (), r.2.2.1, log2)

/-! ## Helper lemmas for the rate limiter -/

/-- A run of the rate limiter with a single item that keeps failing
retriably and then succeeds: the backoff sleeps grow geometrically
from the item's current backoff. -/
theorem rlRun_solo (f : Nat → Nat → Except Nat Nat) :
    ∀ (j r : Nat) (b : ℚ) (v t0 : Nat) (ns : List Nat),
      ns.length = j + 1 →
      (∀ now ∈ ns, now - t0 ≤ 30000) →
      (∀ i, i < j → ∃ e, f 0 (r + i) = Except.error e) →
      f 0 (r + j) = Except.ok v →
      r + j < 5 →
      rlRun f ns [⟨0, r, b, t0⟩] =
        ((List.range j).map fun i => REv.backoffSleep 0 (b * (3 / 2) ^ (i + 1)))
          ++ [REv.resolved 0 v] := by
  intro j
  induction j with
  | zero =>
    intro r b v t0 ns hlen _ _ hok _
    match ns, hlen with
    | [now], _ =>
      simp only [Nat.add_zero] at hok
      simp [rlRun, rlStep, hok]
  | succ j ih =>
    intro r b v t0 ns hlen hwin hfail hok hlt
    match ns, hlen with
    | now :: ns2, hlen =>
      have hlen2 : ns2.length = j + 1 := by simpa using hlen
      obtain ⟨e, he⟩ := hfail 0 (by omega)
      simp only [Nat.add_zero] at he
      have hcond : ¬ (5 ≤ r + 1 ∨ 30000 < now - t0) := by
        have hn := hwin now (List.mem_cons_self now ns2)
        omega
      have hstep : rlStep f now [⟨0, r, b, t0⟩] =
          ([⟨0, r + 1, b * (3 / 2), t0⟩], [REv.backoffSleep 0 (b * (3 / 2))]) := by
        rw [rlStep.eq_def]
        dsimp only
        rw [he]
        dsimp only
        rw [if_neg hcond]
        rfl
      have htail := ih (r + 1) (b * (3 / 2)) v t0 ns2 hlen2
        (fun x hx => hwin x (List.mem_cons_of_mem now hx))
        (fun i hi => by
          obtain ⟨e2, he2⟩ := hfail (i + 1) (by omega)
          exact ⟨e2, by rw [show r + 1 + i = r + (i + 1) by omega]; exact he2⟩)
        (by rw [show r + 1 + j = r + (j + 1) by omega]; exact hok)
        (by omega)
      rw [rlRun]
      simp only [hstep, htail]
      rw [List.range_succ_eq_map, List.map_cons, List.map_map]
      have hshift : (List.range j).map
            ((fun i => REv.backoffSleep 0 (b * (3 / 2) ^ (i + 1))) ∘ Nat.succ)
          = (List.range j).map fun i => REv.backoffSleep 0 (b * (3 / 2) * (3 / 2) ^ (i + 1)) := by
        apply List.map_congr_left
        intro a _
        simp only [Function.comp, Nat.succ_eq_add_one]
        congr 1
        ring
      rw [hshift]
      simp [pow_succ]

/-- Extracting the backoff sleeps of one task from a run that consists
of its backoff sleeps followed by its resolution. -/
theorem backoffsOf_sleeps (t v : Nat) (g : Nat → ℚ) :
    ∀ ns : List Nat,
      backoffsOf t ((ns.map fun i => REv.backoffSleep t (g i)) ++ [REv.resolved t v])
        = ns.map g := by
  intro ns
  induction ns with
  | nil => simp [backoffsOf]
  | cons n rest ih => simp [backoffsOf, ih]

/-- A geometric sequence with ratio 3/2 and positive start: each entry
is 1.5 times the previous one, hence the sequence strictly increases. -/
theorem geom_chain :
    ∀ (k : Nat) (c : ℚ), 0 < c →
      List.Chain' (fun a b => b = a * (3 / 2) ∧ a < b)
        ((List.range k).map fun i => c * (3 / 2) ^ (i + 1)) := by
  intro k
  induction k with
  | zero => intro c _; simp
  | succ k ih =>
    intro c hc
    rw [List.range_succ_eq_map, List.map_cons, List.map_map]
    have hshift : (List.range k).map ((fun i => c * (3 / 2) ^ (i + 1)) ∘ Nat.succ)
        = (List.range k).map fun i => (c * (3 / 2)) * (3 / 2) ^ (i + 1) := by
      apply List.map_congr_left
      intro a _
      simp only [Function.comp, Nat.succ_eq_add_one]
      ring
    rw [hshift]
    rw [List.chain'_cons']
    constructor
    · intro b hb
      cases k with
      | zero => simp at hb
      | succ k2 =>
        rw [List.range_succ_eq_map, List.map_cons] at hb
        simp only [List.head?_cons, Option.mem_def, Option.some_inj] at hb
        subst hb
        constructor
        · ring
        · have h1 : 0 < c * (3 / 2) := by positivity
          nlinarith
    · exact ih (c * (3 / 2)) (by positivity)

/-- Behaviour of the retry loop when every attempt up to the fuel
bound fails: the loop exits unsuccessfully after sleeping the full
backoff-plus-jitter schedule. -/
theorem retryLoop_all_fail (jit : Nat → ℚ) :
    ∀ (fuel a : Nat) (b : ℚ) (send : Nat → Bool),
      (∀ i, i < fuel → send (a + i) = false) →
      retryLoop send jit fuel a b =
        (false, (List.range fuel).map fun i => b * (3 / 2) ^ (i + 1) + jit (a + i)) := by
  intro fuel
  induction fuel with
  | zero => intro a b send _; simp [retryLoop]
  | succ rem ih =>
    intro a b send hfail
    have h0 : send a = false := by simpa using hfail 0 (by omega)
    rw [retryLoop]
    simp only [h0, Bool.false_eq_true, if_false]
    rw [ih (a + 1) (b * (3 / 2)) send
      (fun i hi => by
        have := hfail (i + 1) (by omega)
        rwa [show a + (i + 1) = a + 1 + i by omega] at this)]
    rw [List.range_succ_eq_map, List.map_cons, List.map_map]
    dsimp only
    simp only [Prod.mk.injEq]
    refine ⟨trivial, ?_⟩
    congr 1
    · norm_num
    · apply List.map_congr_left
      intro i _
      simp only [Function.comp, Nat.succ_eq_add_one]
      congr 1
      · ring
      · congr 1
        omega

/-- Behaviour of the retry loop when the first `m` attempts fail and
attempt `m` succeeds, with `m` below the fuel bound. -/
theorem retryLoop_succ_at (jit : Nat → ℚ) :
    ∀ (m fuel a : Nat) (b : ℚ) (send : Nat → Bool),
      m < fuel →
      (∀ i, i < m → send (a + i) = false) →
      send (a + m) = true →
      retryLoop send jit fuel a b =
        (true, (List.range m).map fun i => b * (3 / 2) ^ (i + 1) + jit (a + i)) := by
  intro m
  induction m with
  | zero =>
    intro fuel a b send hm _ hsucc
    cases fuel with
    | zero => omega
    | succ rem =>
      simp only [Nat.add_zero] at hsucc
      rw [retryLoop]
      simp [hsucc]
  | succ m ih =>
    intro fuel a b send hm hfail hsucc
    cases fuel with
    | zero => omega
    | succ rem =>
      have h0 : send a = false := by simpa using hfail 0 (by omega)
      rw [retryLoop]
      simp only [h0, Bool.false_eq_true, if_false]
      rw [ih rem (a + 1) (b * (3 / 2)) send (by omega)
        (fun i hi => by
          have := hfail (i + 1) (by omega)
          rwa [show a + (i + 1) = a + 1 + i by omega] at this)
        (by rwa [show a + 1 + m = a + (m + 1) by omega])]
      rw [List.range_succ_eq_map, List.map_cons, List.map_map]
      dsimp only
      simp only [Prod.mk.injEq]
      refine ⟨trivial, ?_⟩
      congr 1
      · norm_num
      · apply List.map_congr_left
        intro i _
        simp only [Function.comp, Nat.succ_eq_add_one]
        congr 1
        · ring
        · congr 1
          omega

/-! ## Claims about the rate limiter -/

/-- Claim C3: the rate limiter serves submitted tasks strictly in FIFO
order among the tasks in the queue — every event of a step concerns
the head of the queue — and a task whose attempt fails retriably is
re-enqueued at the tail of the queue (behind every other pending
item), not retried in place at the head. -/
theorem rateLimiter_fifo_retry_at_tail
    (f : Nat → Nat → Except Nat Nat) (now : Nat) (item : QItem)
    (rest : List QItem) (e : Nat)
    (hfail : f item.tid item.retries = Except.error e)
    (hretr : item.retries + 1 < 5)
    (htime : now - item.startTime ≤ 30000) :
    rlStep f now (item :: rest) =
      (rest ++ [bumpItem item],
        [REv.backoffSleep item.tid (item.backoffTime * (3 / 2))]) ∧
    ∀ (q : List QItem) (hq : q ≠ []) (ev : REv),
      ev ∈ (rlStep f now q).2 → revTid ev = (q.head hq).tid := by
  constructor
  · have hcond : ¬ (5 ≤ item.retries + 1 ∨ 30000 < now - item.startTime) := by omega
    rw [rlStep.eq_def]
    dsimp only
    rw [hfail]
    dsimp only
    rw [if_neg hcond]
  · intro q hq ev hev
    match q with
    | [] => exact absurd rfl hq
    | it :: rs =>
      cases hval : f it.tid it.retries with
      | ok v =>
        rw [rlStep.eq_def] at hev
        dsimp only at hev
        rw [hval] at hev
        simp at hev
        subst hev
        rfl
      | error e2 =>
        rw [rlStep.eq_def] at hev
        dsimp only at hev
        rw [hval] at hev
        dsimp only at hev
        by_cases hc : 5 ≤ it.retries + 1 ∨ 30000 < now - it.startTime
        · rw [if_pos hc] at hev
          simp at hev
          subst hev
          rfl
        · rw [if_neg hc] at hev
          simp at hev
          subst hev
          rfl

/-- Witness for C3: a concrete retriable failure with another task
waiting; the failed task moves behind the waiting one, with its
retry counter incremented and its backoff multiplied by 1.5. -/
theorem rateLimiter_fifo_retry_at_tail_witness :
    rlStep (fun _ _ => Except.error 9) 0 [⟨0, 0, 3000, 0⟩, ⟨1, 0, 3000, 0⟩] =
      ([⟨1, 0, 3000, 0⟩, ⟨0, 1, 4500, 0⟩], [REv.backoffSleep 0 4500]) := by
  have h := (rateLimiter_fifo_retry_at_tail (fun _ _ => Except.error 9) 0
    ⟨0, 0, 3000, 0⟩ [⟨1, 0, 3000, 0⟩] 9 rfl (by decide) (by decide)).1
  rw [h]
  norm_num [bumpItem]

/-- Claim C4: after a failed attempt, the item's promise is rejected
with the error that attempt raised, and the item dropped from the
queue, exactly when the incremented retry count reaches the maximum of
5 or the wall-clock time elapsed since enqueue exceeds 30000 ms
(elapsed time is measured from the enqueue timestamp `startTime`). -/
theorem rateLimiter_reject_iff
    (f : Nat → Nat → Except Nat Nat) (now : Nat) (item : QItem)
    (rest : List QItem) (e : Nat)
    (hfail : f item.tid item.retries = Except.error e) :
    rlStep f now (item :: rest) = (rest, [REv.rejected item.tid e]) ↔
      (5 ≤ item.retries + 1 ∨ 30000 < now - item.startTime) := by
  rw [rlStep.eq_def]
  dsimp only
  rw [hfail]
  dsimp only
  by_cases hc : 5 ≤ item.retries + 1 ∨ 30000 < now - item.startTime
  · rw [if_pos hc]
    exact iff_of_true rfl hc
  · rw [if_neg hc]
    constructor
    · intro hEq
      exfalso
      have h2 := congrArg Prod.snd hEq
      simp at h2
    · intro h2
      exact absurd h2 hc

/-- Witness for C4: an item on its fifth attempt is rejected with the
error of that attempt and removed. -/
theorem rateLimiter_reject_iff_witness :
    rlStep (fun _ _ => Except.error 3) 0 [⟨0, 4, 3000, 0⟩] = ([], [REv.rejected 0 3]) :=
  (rateLimiter_reject_iff (fun _ _ => Except.error 3) 0 ⟨0, 4, 3000, 0⟩ [] 3 rfl).mpr
    (Or.inl (by decide))

/-- The task-result oracle of the Claim C6 counterexample: task 0
fails on its first two attempts and succeeds on the third, task 1
succeeds immediately. -/
def fC6 : Nat → Nat → Except Nat Nat := fun tid att =>
  if tid = 0 then (if att < 2 then Except.error att else Except.ok 42) else Except.ok 7

/-- Counterexample to Claim C6 as stated.  Task 0 fails exactly twice
(k = 2 < 5) and then succeeds, and its promise resolves with its
result — but its two backoff sleeps are 4500 and 4500: the second is
not 1.5 times the first and the sequence is not strictly increasing.
The cause is the backoff reset of bot.js lines 62-63: after task 1
succeeds, the backoff of task 0 (then at the head) is reset to the
base interval. -/
theorem rateLimiter_backoff_not_increasing :
    fC6 0 0 = Except.error 0 ∧ fC6 0 1 = Except.error 1 ∧ fC6 0 2 = Except.ok 42 ∧
    rlRun fC6 [1, 2, 3, 4] [⟨0, 0, 3000, 0⟩, ⟨1, 0, 3000, 0⟩] =
      [REv.backoffSleep 0 4500, REv.resolved 1 7,
       REv.backoffSleep 0 4500, REv.resolved 0 42] ∧
    backoffsOf 0 (rlRun fC6 [1, 2, 3, 4] [⟨0, 0, 3000, 0⟩, ⟨1, 0, 3000, 0⟩]) =
      [4500, 4500] ∧
    ¬ ((4500 : ℚ) < 4500 ∧ (4500 : ℚ) = 4500 * (3 / 2)) := by
  refine ⟨rfl, rfl, rfl, ?_, ?_, by norm_num⟩
  · norm_num [rlRun, rlStep, fC6, bumpItem]
  · norm_num [rlRun, rlStep, fC6, bumpItem, backoffsOf]

/-- Claim C6 (amended): for a task enqueued at time `t0` that is alone
in the queue for its whole lifetime, that fails exactly `k < 5` times
and then succeeds, where every wall-clock reading of the run stays
within 30000 ms of enqueue (so no failure trips the staleness check),
the run resolves the promise with the task's result after exactly `k`
retries, and the `k` backoff sleeps follow the schedule
`3000·1.5^(i+1)` — each successive backoff is 1.5 times the previous
one, strictly increasing.  (As stated the claim is false: with other
tasks in the queue, an interleaved success resets the backoff, see the
counterexample.) -/
theorem rateLimiter_retry_then_success
    (k v t0 : Nat) (f : Nat → Nat → Except Nat Nat) (ns : List Nat)
    (hk : k < 5)
    (hlen : ns.length = k + 1)
    (hwin : ∀ now ∈ ns, now - t0 ≤ 30000)
    (hfail : ∀ i, i < k → ∃ e, f 0 i = Except.error e)
    (hok : f 0 k = Except.ok v) :
    rlRun f ns [⟨0, 0, 3000, t0⟩] =
      ((List.range k).map fun i => REv.backoffSleep 0 (3000 * (3 / 2) ^ (i + 1)))
        ++ [REv.resolved 0 v] ∧
    backoffsOf 0 (rlRun f ns [⟨0, 0, 3000, t0⟩]) =
      (List.range k).map (fun i => 3000 * (3 / 2) ^ (i + 1)) ∧
    List.Chain' (fun a b : ℚ => b = a * (3 / 2) ∧ a < b)
      (backoffsOf 0 (rlRun f ns [⟨0, 0, 3000, t0⟩])) := by
  have h1 := rlRun_solo f k 0 3000 v t0 ns hlen hwin
    (fun i hi => by simpa using hfail i hi) (by simpa using hok) (by omega)
  refine ⟨h1, ?_, ?_⟩
  · rw [h1]
    exact backoffsOf_sleeps 0 v _ (List.range k)
  · rw [h1, backoffsOf_sleeps]
    exact geom_chain k 3000 (by norm_num)

/-- The oracle of the C6 witness: a solo task failing twice, then
succeeding with value 42. -/
def fC6w : Nat → Nat → Except Nat Nat := fun _ att =>
  if att < 2 then Except.error att else Except.ok 42

/-- Witness for the amended C6 at k = 2, with attempts observed at
wall-clock times 10000, 20000 and 29000 ms after an enqueue at time
1000 (all within the 30000 ms window): two retries at backoffs 4500
and 6750, then resolution with 42. -/
theorem rateLimiter_retry_then_success_witness :
    (2 : Nat) < 5 ∧
    rlRun fC6w [10000, 20000, 29000] [⟨0, 0, 3000, 1000⟩] =
      ((List.range 2).map fun i => REv.backoffSleep 0 (3000 * (3 / 2) ^ (i + 1)))
        ++ [REv.resolved 0 42] := by
  refine ⟨by omega, ?_⟩
  exact (rateLimiter_retry_then_success 2 42 1000 fC6w [10000, 20000, 29000]
    (by omega) rfl (by decide)
    (fun i hi => ⟨i, by interval_cases i <;> rfl⟩) rfl).1

/-- Claim C7: each file group whose queue submission rejects gets a
second, independent retry layer around the submission: up to 5
attempts; between attempts the loop waits its own backoff — starting
from 3000 ms and multiplied by 1.5 after each failure — plus the
jitter drawn for that attempt.  The first conjunct gives the schedule
when the first `m < 5` attempts fail and attempt `m` succeeds; the
second when all 5 attempts fail. -/
theorem groupSendRetryLayer
    (send : Nat → Bool) (jit : Nat → ℚ) (m : Nat)
    (hm : m < 5) (hfail : ∀ i, i < m → send i = false) (hsucc : send m = true) :
    retryLoop send jit 5 0 3000 =
      (true, (List.range m).map fun i => 3000 * (3 / 2) ^ (i + 1) + jit i) ∧
    ∀ send2 : Nat → Bool, (∀ i, i < 5 → send2 i = false) →
      retryLoop send2 jit 5 0 3000 =
        (false, (List.range 5).map fun i => 3000 * (3 / 2) ^ (i + 1) + jit i) := by
  constructor
  · have h := retryLoop_succ_at jit m 5 0 3000 send hm
      (fun i hi => by simpa using hfail i hi) (by simpa using hsucc)
    simpa using h
  · intro send2 h2
    have h := retryLoop_all_fail jit 5 0 3000 send2 (fun i hi => by simpa using h2 i hi)
    simpa using h

/-- Witness for C7: a send that fails twice then succeeds, with
constant jitter 1: waits 4501 then 6751. -/
theorem groupSendRetryLayer_witness :
    retryLoop (fun a => decide (2 ≤ a)) (fun _ => 1) 5 0 3000 = (true, [4501, 6751]) := by
  have h := (groupSendRetryLayer (fun a => decide (2 ≤ a)) (fun _ => 1) 2 (by omega)
    (fun i hi => by interval_cases i <;> rfl) (by rfl)).1
  rw [h]
  norm_num [List.range_succ]

/-! ## Claims about the delivery pipeline -/

theorem groupsOf_flatten : ∀ l : List FileRef, (groupsOf l).flatten = l := by
  have H : ∀ (n : Nat) (l : List FileRef), l.length ≤ n → (groupsOf l).flatten = l := by
    intro n
    induction n with
    | zero =>
      intro l hl
      match l with
      | [] => simp [groupsOf]
      | f :: rest => simp at hl
    | succ n ih =>
      intro l hl
      match l with
      | [] => simp [groupsOf]
      | f :: rest =>
        simp only [List.length_cons] at hl
        rw [groupsOf]
        rw [List.flatten_cons, ih (rest.drop 9) (by simp; omega)]
        simp [List.take_append_drop]
  exact fun l => H l.length l le_rfl

theorem groupsOf_mem_le :
    ∀ (l : List FileRef) (grp : List FileRef), grp ∈ groupsOf l →
      grp.length ≤ 10 ∧ grp ≠ [] := by
  have H : ∀ (n : Nat) (l : List FileRef) (grp : List FileRef), l.length ≤ n →
      grp ∈ groupsOf l → grp.length ≤ 10 ∧ grp ≠ [] := by
    intro n
    induction n with
    | zero =>
      intro l grp hl hm
      match l with
      | [] => simp [groupsOf] at hm
      | f :: rest => simp at hl
    | succ n ih =>
      intro l grp hl hm
      match l with
      | [] => simp [groupsOf] at hm
      | f :: rest =>
        simp only [List.length_cons] at hl
        rw [groupsOf] at hm
        rcases List.mem_cons.mp hm with h | h
        · subst h
          refine ⟨?_, by simp⟩
          simp only [List.length_cons]
          have h9 := List.length_take_le 9 rest
          omega
        · exact ih (rest.drop 9) grp (by simp; omega) h
  exact fun l grp => H l.length l grp le_rfl

theorem processGroupCore_count (env : Env) (total g : Nat) (grp : List FileRef)
    (succ : Nat) (failed : List FileRef) (log : List PEv)
    (hp : env.replyOk (ReplyKind.progress g) = true)
    (hf : env.replyOk (ReplyKind.groupFail g) = true) :
    (processGroupCore env total g grp succ failed log).1 +
      (processGroupCore env total g grp succ failed log).2.1.length
      = succ + failed.length + grp.length := by
  unfold processGroupCore
  dsimp only
  split_ifs <;> simp_all [List.length_append] <;> omega

theorem runGroups_count (env : Env) (total : Nat)
    (hr : ∀ k, env.replyOk k = true) :
    ∀ (grps : List (List FileRef)) (g succ : Nat) (failed : List FileRef)
      (fs : List Nat) (log : List PEv),
      (runGroups env total grps g succ failed fs log).1 +
        (runGroups env total grps g succ failed fs log).2.1.length
      = succ + failed.length + (grps.map List.length).sum := by
  intro grps
  induction grps with
  | nil => intro g succ failed fs log; simp [runGroups]
  | cons grp rest ih =>
    intro g succ failed fs log
    have hcount := processGroupCore_count env total g grp succ failed log (hr _) (hr _)
    rw [runGroups]
    dsimp only [processGroup]
    rw [ih]
    simp only [List.map_cons, List.sum_cons]
    omega

theorem cleanupGroup_spec :
    ∀ (grp : List FileRef) (fs : List Nat) (log : List PEv), fs.Nodup →
      (cleanupGroup grp fs log).1.Nodup ∧
      (∀ p : Nat, p ∈ (cleanupGroup grp fs log).1 ↔ p ∈ fs ∧ p ∉ pathsOf grp) ∧
      (∀ p : Nat, (cleanupGroup grp fs log).2.count (PEv.unlink p) =
        log.count (PEv.unlink p) + (if p ∈ fs ∧ p ∈ pathsOf grp then 1 else 0)) := by
  intro grp
  induction grp with
  | nil =>
    intro fs log hnd
    refine ⟨hnd, ?_, ?_⟩
    · intro p
      simp [cleanupGroup, pathsOf]
    · intro p
      simp [cleanupGroup, pathsOf]
  | cons f rest ih =>
    intro fs log hnd
    rw [cleanupGroup]
    by_cases hmem : f.path ∈ fs
    · rw [if_pos hmem]
      obtain ⟨ih1, ih2, ih3⟩ := ih (fs.erase f.path) (log ++ [PEv.unlink f.path]) (hnd.erase _)
      refine ⟨ih1, ?_, ?_⟩
      · intro p
        rw [ih2 p, hnd.mem_erase_iff]
        simp only [pathsOf, List.map_cons, List.mem_cons, not_or]
        constructor
        · rintro ⟨⟨hne, hpfs⟩, hnr⟩
          exact ⟨hpfs, hne, hnr⟩
        · rintro ⟨hpfs, hne, hnr⟩
          exact ⟨⟨hne, hpfs⟩, hnr⟩
      · intro p
        rw [ih3 p, List.count_append]
        by_cases hp : p = f.path
        · subst hp
          have h1 : ¬ (f.path ∈ fs.erase f.path ∧ f.path ∈ pathsOf rest) := by
            rintro ⟨hin, _⟩
            exact (hnd.mem_erase_iff.mp hin).1 rfl
          have h2 : f.path ∈ fs ∧ f.path ∈ pathsOf (f :: rest) := by
            refine ⟨hmem, ?_⟩
            simp [pathsOf]
          rw [if_neg h1, if_pos h2]
          simp [List.count_cons]
        · have hcnt : ([PEv.unlink f.path] : List PEv).count (PEv.unlink p) = 0 := by
            simp [List.count_cons]
            exact fun h => (hp h.symm).elim
          have hiff : (p ∈ fs.erase f.path ∧ p ∈ pathsOf rest) ↔
              (p ∈ fs ∧ p ∈ pathsOf (f :: rest)) := by
            rw [hnd.mem_erase_iff]
            simp only [pathsOf, List.map_cons, List.mem_cons]
            constructor
            · rintro ⟨⟨_, hpfs⟩, hr⟩
              exact ⟨hpfs, Or.inr hr⟩
            · rintro ⟨hpfs, hor⟩
              rcases hor with h | h
              · exact absurd h hp
              · exact ⟨⟨hp, hpfs⟩, h⟩
          rw [hcnt]
          simp only [hiff]
          omega
    · rw [if_neg hmem]
      obtain ⟨ih1, ih2, ih3⟩ := ih fs log hnd
      have hne : ∀ p : Nat, p ∈ fs → p ≠ f.path := by
        intro p hpfs h
        subst h
        exact hmem hpfs
      refine ⟨ih1, ?_, ?_⟩
      · intro p
        rw [ih2 p]
        simp only [pathsOf, List.map_cons, List.mem_cons, not_or]
        constructor
        · rintro ⟨hpfs, hnr⟩
          exact ⟨hpfs, hne p hpfs, hnr⟩
        · rintro ⟨hpfs, _, hnr⟩
          exact ⟨hpfs, hnr⟩
      · intro p
        rw [ih3 p]
        have hiff : (p ∈ fs ∧ p ∈ pathsOf rest) ↔ (p ∈ fs ∧ p ∈ pathsOf (f :: rest)) := by
          simp only [pathsOf, List.map_cons, List.mem_cons]
          constructor
          · rintro ⟨hpfs, hr⟩
            exact ⟨hpfs, Or.inr hr⟩
          · rintro ⟨hpfs, hor⟩
            rcases hor with h | h
            · exact absurd h (hne p hpfs)
            · exact ⟨hpfs, h⟩
        simp only [hiff]

theorem cleanupGroup_mem_reply :
    ∀ (grp : List FileRef) (fs : List Nat) (log : List PEv) (ev : PEv),
      (∀ p, ev ≠ PEv.unlink p) →
      (ev ∈ (cleanupGroup grp fs log).2 ↔ ev ∈ log) := by
  intro grp
  induction grp with
  | nil =>
    intro fs log ev h
    simp [cleanupGroup]
  | cons f rest ih =>
    intro fs log ev h
    rw [cleanupGroup]
    by_cases hmem : f.path ∈ fs
    · rw [if_pos hmem, ih _ _ _ h]
      simp only [List.mem_append, List.mem_singleton]
      constructor
      · rintro (hl | he)
        · exact hl
        · exact absurd he (h f.path)
      · exact fun hl => Or.inl hl
    · rw [if_neg hmem]
      exact ih _ _ _ h

theorem processGroupCore_cases (env : Env) (total g : Nat) (grp : List FileRef)
    (succ : Nat) (failed : List FileRef) (log : List PEv) :
    ∃ (nf : List FileRef) (ne : List PEv),
      (processGroupCore env total g grp succ failed log).2.1 = failed ++ nf ∧
      (processGroupCore env total g grp succ failed log).2.2 = log ++ ne ∧
      (∀ j, PEv.groupFailReply j ∈ ne →
        j = g ∧ env.buildOk g = true ∧
          (retryLoop (env.sendOk g) (env.jit g) 5 0 3000).1 = false) ∧
      (∀ p, PEv.unlink p ∉ ne) ∧
      ((env.buildOk g = false ∨ (retryLoop (env.sendOk g) (env.jit g) 5 0 3000).1 = false) →
        ∀ x ∈ grp, x ∈ nf) := by
  unfold processGroupCore
  dsimp only
  by_cases hb : env.buildOk g = true
  · rw [if_pos hb]
    by_cases hrt : (retryLoop (env.sendOk g) (env.jit g) 5 0 3000).1 = true
    · rw [if_pos hrt]
      by_cases hc : ((succ + grp.length) % 30 == 0 || decide (total ≤ g * 10 + 10)) = true
      · rw [if_pos hc]
        by_cases hrp : env.replyOk (ReplyKind.progress g) = true
        · rw [if_pos hrp]
          refine ⟨[], [PEv.progressReply (succ + grp.length) total], by simp, by simp, ?_, ?_, ?_⟩
          · intro j hj
            simp at hj
          · intro p hp
            simp at hp
          · rintro (h | h)
            · rw [hb] at h
              cases h
            · rw [hrt] at h
              cases h
        · rw [if_neg hrp]
          refine ⟨grp, [PEv.progressReply (succ + grp.length) total], by simp, by simp, ?_, ?_, ?_⟩
          · intro j hj
            simp at hj
          · intro p hp
            simp at hp
          · intro _ x hx
            exact hx
      · rw [if_neg hc]
        refine ⟨[], [], by simp, by simp, ?_, ?_, ?_⟩
        · intro j hj
          simp at hj
        · intro p hp
          simp at hp
        · rintro (h | h)
          · rw [hb] at h
            cases h
          · rw [hrt] at h
            cases h
    · rw [if_neg hrt]
      by_cases hrf : env.replyOk (ReplyKind.groupFail g) = true
      · rw [if_pos hrf]
        refine ⟨grp, [PEv.groupFailReply g], by simp, by simp, ?_, ?_, ?_⟩
        · intro j hj
          simp at hj
          subst hj
          exact ⟨rfl, hb, by simpa using hrt⟩
        · intro p hp
          simp at hp
        · intro _ x hx
          exact hx
      · rw [if_neg hrf]
        refine ⟨grp ++ grp, [PEv.groupFailReply g], by simp, by simp, ?_, ?_, ?_⟩
        · intro j hj
          simp at hj
          subst hj
          exact ⟨rfl, hb, by simpa using hrt⟩
        · intro p hp
          simp at hp
        · intro _ x hx
          exact List.mem_append.mpr (Or.inl hx)
  · rw [if_neg hb]
    refine ⟨grp, [], by simp, by simp, ?_, ?_, ?_⟩
    · intro j hj
      simp at hj
    · intro p hp
      simp at hp
    · intro _ x hx
      exact hx

theorem processGroupCore_unlink_count (env : Env) (total g : Nat) (grp : List FileRef)
    (succ : Nat) (failed : List FileRef) (log : List PEv) (p : Nat) :
    (processGroupCore env total g grp succ failed log).2.2.count (PEv.unlink p) =
      log.count (PEv.unlink p) := by
  obtain ⟨nf, ne, hf, he, hgf, hnu, herr⟩ :=
    processGroupCore_cases env total g grp succ failed log
  rw [he, List.count_append]
  have h0 : ne.count (PEv.unlink p) = 0 := List.count_eq_zero.mpr (hnu p)
  omega

theorem runGroups_failed_mono (env : Env) (total : Nat) :
    ∀ (grps : List (List FileRef)) (g succ : Nat) (failed : List FileRef)
      (fs : List Nat) (log : List PEv) (x : FileRef), x ∈ failed →
      x ∈ (runGroups env total grps g succ failed fs log).2.1 := by
  intro grps
  induction grps with
  | nil =>
    intro g succ failed fs log x hx
    simpa [runGroups] using hx
  | cons grp rest ih =>
    intro g succ failed fs log x hx
    rw [runGroups]
    dsimp only [processGroup]
    apply ih
    obtain ⟨nf, ne, hf, he, _, _, _⟩ := processGroupCore_cases env total g grp succ failed log
    rw [hf]
    exact List.mem_append.mpr (Or.inl hx)

theorem runGroups_err_mem (env : Env) (total : Nat) :
    ∀ (grps : List (List FileRef)) (g succ : Nat) (failed : List FileRef)
      (fs : List Nat) (log : List PEv) (k : Nat) (grp : List FileRef),
      grps[k]? = some grp →
      (env.buildOk (g + k) = false ∨
        (retryLoop (env.sendOk (g + k)) (env.jit (g + k)) 5 0 3000).1 = false) →
      ∀ x ∈ grp, x ∈ (runGroups env total grps g succ failed fs log).2.1 := by
  intro grps
  induction grps with
  | nil =>
    intro g succ failed fs log k grp hk
    simp at hk
  | cons grp0 rest ih =>
    intro g succ failed fs log k grp hk herr x hx
    cases k with
    | zero =>
      simp only [List.getElem?_cons_zero, Option.some_inj] at hk
      subst hk
      rw [runGroups]
      dsimp only [processGroup]
      apply runGroups_failed_mono
      obtain ⟨nf, ne, hf, he, _, _, herrf⟩ :=
        processGroupCore_cases env total g grp0 succ failed log
      rw [hf]
      exact List.mem_append.mpr (Or.inr (herrf (by simpa using herr) x hx))
    | succ k2 =>
      simp only [List.getElem?_cons_succ] at hk
      rw [runGroups]
      dsimp only [processGroup]
      exact ih (g + 1) _ _ _ _ k2 grp hk
        (by rw [show g + 1 + k2 = g + (k2 + 1) by omega]; exact herr) x hx

theorem runGroups_groupFail_src (env : Env) (total : Nat) :
    ∀ (grps : List (List FileRef)) (g succ : Nat) (failed : List FileRef)
      (fs : List Nat) (log : List PEv) (j : Nat),
      PEv.groupFailReply j ∈ (runGroups env total grps g succ failed fs log).2.2.2 →
      PEv.groupFailReply j ∈ log ∨
        (env.buildOk j = true ∧ (retryLoop (env.sendOk j) (env.jit j) 5 0 3000).1 = false) := by
  intro grps
  induction grps with
  | nil =>
    intro g succ failed fs log j h
    simp only [runGroups] at h
    exact Or.inl h
  | cons grp rest ih =>
    intro g succ failed fs log j h
    rw [runGroups] at h
    dsimp only [processGroup] at h
    rcases ih _ _ _ _ _ _ h with hl | hprop
    · have hnu : ∀ p : Nat, PEv.groupFailReply j ≠ PEv.unlink p := by
        intro p hne
        cases hne
      rw [cleanupGroup_mem_reply grp fs _ _ hnu] at hl
      obtain ⟨nf, ne, hf, he, hgf, hnu2, herr⟩ :=
        processGroupCore_cases env total g grp succ failed log
      rw [he] at hl
      rcases List.mem_append.mp hl with h1 | h2
      · exact Or.inl h1
      · obtain ⟨hj, hb, hr⟩ := hgf j h2
        subst hj
        exact Or.inr ⟨hb, hr⟩
    · exact Or.inr hprop

theorem runGroups_fs (env : Env) (total : Nat) :
    ∀ (grps : List (List FileRef)) (g succ : Nat) (failed : List FileRef)
      (fs : List Nat) (log : List PEv), fs.Nodup →
      (runGroups env total grps g succ failed fs log).2.2.1.Nodup ∧
      (∀ p : Nat, p ∈ (runGroups env total grps g succ failed fs log).2.2.1 ↔
        p ∈ fs ∧ p ∉ pathsOf grps.flatten) ∧
      (∀ p : Nat, (runGroups env total grps g succ failed fs log).2.2.2.count (PEv.unlink p) =
        log.count (PEv.unlink p) +
          (if p ∈ fs ∧ p ∈ pathsOf grps.flatten then 1 else 0)) := by
  intro grps
  induction grps with
  | nil =>
    intro g succ failed fs log hnd
    refine ⟨hnd, ?_, ?_⟩
    · intro p
      simp [runGroups, pathsOf]
    · intro p
      simp [runGroups, pathsOf]
  | cons grp rest ih =>
    intro g succ failed fs log hnd
    rw [runGroups]
    dsimp only [processGroup]
    obtain ⟨cn, cm, cc⟩ :=
      cleanupGroup_spec grp fs (processGroupCore env total g grp succ failed log).2.2 hnd
    obtain ⟨rn, rm, rc⟩ := ih (g + 1) (processGroupCore env total g grp succ failed log).1
      (processGroupCore env total g grp succ failed log).2.1 _ _ cn
    refine ⟨rn, ?_, ?_⟩
    · intro p
      rw [rm p, cm p]
      simp only [List.flatten_cons, pathsOf, List.map_append, List.mem_append, not_or]
      tauto
    · intro p
      have hif := cm p
      rw [rc p, cc p, processGroupCore_unlink_count]
      simp only [hif, List.flatten_cons, pathsOf, List.map_append, List.mem_append]
      by_cases h1 : p ∈ fs <;> by_cases h2 : p ∈ List.map FileRef.path grp <;>
        by_cases h3 : p ∈ List.map FileRef.path rest.flatten <;>
        simp [h1, h2, h3]

theorem sendFilesInGroups_parts (env : Env) (files : List FileRef) (fs0 : List Nat) :
    (sendFilesInGroups env files fs0).2.1 =
      (runGroups env files.length (groupsOf files) 0 0 [] fs0 []).2.2.1 ∧
    (sendFilesInGroups env files fs0).2.2 =
      (runGroups env files.length (groupsOf files) 0 0 [] fs0 []).2.2.2 ++
        [PEv.summaryReply (runGroups env files.length (groupsOf files) 0 0 [] fs0 []).1
          (runGroups env files.length (groupsOf files) 0 0 [] fs0 []).2.1.length
          ((files.length + 9) / 10)] := by
  rw [sendFilesInGroups]
  split_ifs <;> exact ⟨rfl, rfl⟩

theorem sendFilesInGroups_ok (env : Env) (files : List FileRef) (fs0 : List Nat)
    (hs : env.replyOk ReplyKind.summary = true) :
    (sendFilesInGroups env files fs0).1 =
      Except.ok ⟨(runGroups env files.length (groupsOf files) 0 0 [] fs0 []).1,
        (runGroups env files.length (groupsOf files) 0 0 [] fs0 []).2.1⟩ := by
  rw [sendFilesInGroups]
  rw [if_pos hs]

/-- Claim C1 (amended): for every non-empty file list, provided no
notification raises, the pipeline returns an outcome whose success
count plus failed-file count equals the input length, the files being
partitioned into consecutive groups of at most 10 preserving the
original order.  (As stated, over arbitrary reply-sink behaviour, the
claim is false: see the counterexample.) -/
theorem sendFiles_total_accounting (env : Env) (files : List FileRef) (fs0 : List Nat)
    (hne : files ≠ []) (hr : ∀ k, env.replyOk k = true) :
    ∃ out : SendResult, (sendFilesInGroups env files fs0).1 = Except.ok out ∧
      out.successCount + out.failedFiles.length = files.length ∧
      (groupsOf files).flatten = files ∧
      ∀ grp ∈ groupsOf files, grp.length ≤ 10 ∧ grp ≠ [] := by
  refine ⟨_, sendFilesInGroups_ok env files fs0 (hr ReplyKind.summary), ?_,
    groupsOf_flatten files, fun grp h => groupsOf_mem_le files grp h⟩
  have h := runGroups_count env files.length hr (groupsOf files) 0 0 [] fs0 []
  have hsum : ((groupsOf files).map List.length).sum = files.length := by
    have h2 := congrArg List.length (groupsOf_flatten files)
    rwa [List.length_flatten] at h2
  simp only [List.length_nil, Nat.zero_add] at h
  dsimp only
  omega

/-- Claim C2: every File Reference passed to `sendFilesInGroups` is
removed from local storage exactly once by the time the call returns
(one `unlink` event when the file existed, none when it was already
missing — a missing file is skipped without error), and its path no
longer exists afterwards.  Deletion runs in the `finally` block, so
this holds whether the group's transmission succeeded or failed, and
for arbitrary reply-sink behaviour. -/
theorem sendFiles_cleanup_once (env : Env) (files : List FileRef) (fs0 : List Nat)
    (hnd : fs0.Nodup) :
    ∀ f ∈ files,
      f.path ∉ (sendFilesInGroups env files fs0).2.1 ∧
      (sendFilesInGroups env files fs0).2.2.count (PEv.unlink f.path) =
        (if f.path ∈ fs0 then 1 else 0) := by
  intro f hf
  obtain ⟨hfs, hlog⟩ := sendFilesInGroups_parts env files fs0
  obtain ⟨rn, rm, rc⟩ := runGroups_fs env files.length (groupsOf files) 0 0 [] fs0 [] hnd
  have hpath : f.path ∈ pathsOf (groupsOf files).flatten := by
    rw [groupsOf_flatten]
    exact List.mem_map_of_mem _ hf
  constructor
  · rw [hfs]
    intro hmem
    exact ((rm f.path).mp hmem).2 hpath
  · rw [hlog, List.count_append, rc f.path]
    simp only [List.count_nil, List.count_cons, List.count_eq_zero]
    by_cases h : f.path ∈ fs0 <;> simp [h, hpath]

/-- Claim C5: an error raised while constructing a group's media
batch or while sending a group never aborts the loop over the
remaining groups: the run still completes with an outcome, every
failing group's files are recorded as failed entries, and the final
summary notification is still emitted. -/
theorem sendFiles_group_error_contained (env : Env) (files : List FileRef) (fs0 : List Nat)
    (hr : ∀ k, env.replyOk k = true) :
    ∃ out : SendResult, (sendFilesInGroups env files fs0).1 = Except.ok out ∧
      (∀ (k : Nat) (grp : List FileRef), (groupsOf files)[k]? = some grp →
        (env.buildOk k = false ∨ (retryLoop (env.sendOk k) (env.jit k) 5 0 3000).1 = false) →
        ∀ x ∈ grp, x ∈ out.failedFiles) ∧
      PEv.summaryReply out.successCount out.failedFiles.length ((files.length + 9) / 10)
        ∈ (sendFilesInGroups env files fs0).2.2 := by
  refine ⟨_, sendFilesInGroups_ok env files fs0 (hr ReplyKind.summary), ?_, ?_⟩
  · intro k grp hk herr x hx
    exact runGroups_err_mem env files.length (groupsOf files) 0 0 [] fs0 [] k grp hk
      (by simpa using herr) x hx
  · rw [(sendFilesInGroups_parts env files fs0).2]
    exact List.mem_append_right _ (List.mem_singleton.mpr rfl)

/-- Claim C8: for the empty input list the pipeline processes zero
groups, returns the Delivery Outcome (0, []), leaves the filesystem
untouched, and emits exactly one summary notification reporting zero
successes, zero failures and zero groups. -/
theorem sendFiles_empty (env : Env) (fs0 : List Nat)
    (hs : env.replyOk ReplyKind.summary = true) :
    sendFilesInGroups env [] fs0 = (Except.ok ⟨0, []⟩, fs0, [PEv.summaryReply 0 0 0]) := by
  unfold sendFilesInGroups
  rw [show groupsOf [] = [] from by rw [groupsOf]]
  rw [if_pos hs]
  rfl

/-- Claim C10: when a group fails because an error was raised outside
the per-group retry loop (here: media-batch construction fails), its
files are appended to the failed list and cleanup still removes them
from storage, but no failure notification naming the group's ordinal
is ever emitted for that group. -/
theorem sendFiles_outer_error_silent (env : Env) (files : List FileRef) (fs0 : List Nat)
    (g : Nat) (grp : List FileRef)
    (hg : (groupsOf files)[g]? = some grp)
    (hbuild : env.buildOk g = false)
    (hnd : fs0.Nodup)
    (hs : env.replyOk ReplyKind.summary = true) :
    ∃ out : SendResult, (sendFilesInGroups env files fs0).1 = Except.ok out ∧
      (∀ x ∈ grp, x ∈ out.failedFiles) ∧
      (∀ x ∈ grp, x.path ∉ (sendFilesInGroups env files fs0).2.1) ∧
      PEv.groupFailReply g ∉ (sendFilesInGroups env files fs0).2.2 := by
  refine ⟨_, sendFilesInGroups_ok env files fs0 hs, ?_, ?_, ?_⟩
  · intro x hx
    exact runGroups_err_mem env files.length (groupsOf files) 0 0 [] fs0 [] g grp hg
      (by simpa using Or.inl hbuild) x hx
  · intro x hx
    rw [(sendFilesInGroups_parts env files fs0).1]
    obtain ⟨rn, rm, rc⟩ := runGroups_fs env files.length (groupsOf files) 0 0 [] fs0 [] hnd
    intro hmem
    have hxf : x ∈ files := by
      rw [← groupsOf_flatten files]
      exact List.mem_flatten.mpr ⟨grp, List.getElem?_mem hg, hx⟩
    have hpath : x.path ∈ pathsOf (groupsOf files).flatten := by
      rw [groupsOf_flatten]
      exact List.mem_map_of_mem _ hxf
    exact ((rm x.path).mp hmem).2 hpath
  · intro hmem
    rw [(sendFilesInGroups_parts env files fs0).2] at hmem
    rcases List.mem_append.mp hmem with h1 | h2
    · rcases runGroups_groupFail_src env files.length (groupsOf files) 0 0 [] fs0 [] g h1
        with h | h
      · simp at h
      · rw [hbuild] at h
        exact absurd h.1 (by simp)
    · simp at h2

/-- Environment of the C1 counterexample: sends succeed but the
progress notification raises. -/
def envC1 : Env where
  buildOk := fun _ => true
  sendOk := fun _ _ => true
  replyOk := fun k =>
    match k with
    | ReplyKind.progress _ => false
    | _ => true
  jit := fun _ _ => 0

/-- Counterexample to Claim C1 as stated: with a reply sink that
raises on the progress notification, a single successfully sent file
is counted both as a success and as a failed file, so success count
plus failed count is 2 for an input of length 1. -/
theorem sendFiles_count_cex :
    (sendFilesInGroups envC1 [⟨0⟩] [0]).1 =
      Except.ok ⟨1, [⟨0⟩]⟩ ∧ (1 : Nat) + 1 ≠ ([⟨0⟩] : List FileRef).length := by
  have hg : groupsOf [⟨0⟩] = [[⟨0⟩]] := by simp [groupsOf]
  constructor
  · unfold sendFilesInGroups
    rw [hg]
    rfl
  · simp

def envC9 : Env where
  buildOk := fun _ => true
  sendOk := fun _ _ => true
  replyOk := fun k =>
    match k with
    | ReplyKind.progress _ => false
    | _ => true
  jit := fun _ _ => 0

/-- Claim C9: when the progress notification after a successful group
send raises, the group's file count stays in the success counter and
the group's files are additionally appended to the failed list, so the
group contributes to both totals: here one group of 2 files yields
success count 2 and 2 failed files, and 2 + 2 exceeds the input
length. -/
theorem sendFiles_progress_raise_double_count :
    (sendFilesInGroups envC9 [⟨5⟩, ⟨7⟩] [5, 7]).1 =
      Except.ok ⟨2, [⟨5⟩, ⟨7⟩]⟩ ∧
    (2 : Nat) + 2 ≠ ([⟨5⟩, ⟨7⟩] : List FileRef).length := by
  have hg : groupsOf [⟨5⟩, ⟨7⟩] = [[⟨5⟩, ⟨7⟩]] := by simp [groupsOf]
  constructor
  · unfold sendFilesInGroups
    rw [hg]
    rfl
  · simp

def envW1 : Env := ⟨fun _ => true, fun _ _ => true, fun _ => true, fun _ _ => 0⟩

/-- Witness for the amended C1 at a concrete one-file input. -/
theorem sendFiles_total_accounting_witness :
    ∃ out : SendResult, (sendFilesInGroups envW1 [⟨2⟩] [2]).1 = Except.ok out ∧
      out.successCount + out.failedFiles.length = ([⟨2⟩] : List FileRef).length ∧
      (groupsOf [⟨2⟩]).flatten = [⟨2⟩] ∧
      ∀ grp ∈ groupsOf [⟨2⟩], grp.length ≤ 10 ∧ grp ≠ [] :=
  sendFiles_total_accounting envW1 [⟨2⟩] [2] (by simp) (fun _ => rfl)

def envW2 : Env := ⟨fun _ => true, fun _ _ => true, fun _ => true, fun _ _ => 0⟩

/-- Witness for C2 at a concrete one-file input. -/
theorem sendFiles_cleanup_once_witness :
    (FileRef.mk 3).path ∉ (sendFilesInGroups envW2 [⟨3⟩] [3]).2.1 ∧
    (sendFilesInGroups envW2 [⟨3⟩] [3]).2.2.count (PEv.unlink (FileRef.mk 3).path) =
      (if (FileRef.mk 3).path ∈ ([3] : List Nat) then 1 else 0) :=
  sendFiles_cleanup_once envW2 [⟨3⟩] [3] (by decide) ⟨3⟩ (by decide)

def envW5 : Env := ⟨fun g => g != 0, fun _ _ => true, fun _ => true, fun _ _ => 0⟩

/-- Witness for C5 at a concrete one-file input. -/
theorem sendFiles_group_error_contained_witness :
    ∃ out : SendResult, (sendFilesInGroups envW5 [⟨4⟩] [4]).1 = Except.ok out ∧
      (∀ (k : Nat) (grp : List FileRef), (groupsOf [⟨4⟩])[k]? = some grp →
        (envW5.buildOk k = false ∨
          (retryLoop (envW5.sendOk k) (envW5.jit k) 5 0 3000).1 = false) →
        ∀ x ∈ grp, x ∈ out.failedFiles) ∧
      PEv.summaryReply out.successCount out.failedFiles.length
          ((([⟨4⟩] : List FileRef).length + 9) / 10)
        ∈ (sendFilesInGroups envW5 [⟨4⟩] [4]).2.2 :=
  sendFiles_group_error_contained envW5 [⟨4⟩] [4] (fun _ => rfl)

def envW8 : Env := ⟨fun _ => true, fun _ _ => true, fun _ => true, fun _ _ => 0⟩

/-- Witness for C8 with a concrete initial filesystem. -/
theorem sendFiles_empty_witness :
    sendFilesInGroups envW8 [] [9] = (Except.ok ⟨0, []⟩, [9], [PEv.summaryReply 0 0 0]) :=
  sendFiles_empty envW8 [9] rfl

def envW10 : Env := ⟨fun _ => false, fun _ _ => true, fun _ => true, fun _ _ => 0⟩

/-- Witness for C10: media-batch construction fails for the only
group. -/
theorem sendFiles_outer_error_silent_witness :
    ∃ out : SendResult, (sendFilesInGroups envW10 [⟨6⟩] [6]).1 = Except.ok out ∧
      (∀ x ∈ ([⟨6⟩] : List FileRef), x ∈ out.failedFiles) ∧
      (∀ x ∈ ([⟨6⟩] : List FileRef), x.path ∉ (sendFilesInGroups envW10 [⟨6⟩] [6]).2.1) ∧
      PEv.groupFailReply 0 ∉ (sendFilesInGroups envW10 [⟨6⟩] [6]).2.2 :=
  sendFiles_outer_error_silent envW10 [⟨6⟩] [6] 0 [⟨6⟩] (by simp [groupsOf]) rfl
    (by decide) rfl
